import Mathlib

/-!
Verification development for the `function-extra-resources` Crossplane
composition function (the current `main` sources: `buildRequirements`,
`verifyAndSortExtras`, `sortExtrasByFieldPath`, `mergeMaps`,
`intoEnvironment`).

Modelling conventions:
* Go's `interface{}` values decoded from unstructured Kubernetes objects are
  modelled by the inductive `Val`; `reflect.TypeOf` is modelled by `Val.kind`.
* Go's `map[string]interface{}` is modelled as an association list
  (`GoMap`) with map-update semantics (`mapSet` replaces in place).
* The `fieldpath` library is an external collaborator; it is modelled at
  interface level: a field path is a non-empty list of segments (the parsed
  form of the dotted path string; the empty list stands for the empty
  string), and `getValue` walks nested maps, with a distinguishable
  "not found" outcome like `fieldpath.IsNotFound`.
* Go panics (nil-pointer dereferences) are modelled by the distinguished
  error value `GoErr.nilPanic`, kept apart from ordinary returned errors
  (`GoErr.goError`).
* `float64`/`float32` payloads are modelled by integers: every claim under
  verification depends only on value kinds and on strict ordering, not on
  IEEE-754 arithmetic.
-/

/-- A dynamic (JSON-like) value as found in an unstructured Kubernetes
object. Each constructor corresponds to one `reflect` kind distinguished by
the sorting code. -/
inductive Val where
  | str (s : String)
  | iGo (n : Int)
  | i64 (n : Int)
  | i32 (n : Int)
  | i16 (n : Int)
  | i8 (n : Int)
  | f64 (n : Int)
  | f32 (n : Int)
  | boolean (b : Bool)
  | vmap (m : List (String × Val))
  | arr (l : List Val)
deriving Repr

/-- A Go `map[string]interface{}`, modelled as an association list with
map-update (replace-in-place) semantics. -/
abbrev GoMap := List (String × Val)

/-- The `reflect.Kind` of a dynamic value. -/
inductive VKind where
  | kstr | kint | ki64 | ki32 | ki16 | ki8 | kf64 | kf32 | kbool | kmap | kslice
deriving DecidableEq, Repr

/-- `reflect.TypeOf` for the modelled values. -/
def Val.kind : Val → VKind
  | .str _ => .kstr
  | .iGo _ => .kint
  | .i64 _ => .ki64
  | .i32 _ => .ki32
  | .i16 _ => .ki16
  | .i8 _ => .ki8
  | .f64 _ => .kf64
  | .f32 _ => .kf32
  | .boolean _ => .kbool
  | .vmap _ => .kmap
  | .arr _ => .kslice

/-- Map lookup (`m[k]`, with the `ok` flag encoded as `Option`). -/
def mapGet : GoMap → String → Option Val
  | [], _ => none
  | (k', v) :: rest, k => if k' = k then some v else mapGet rest k

/-- Map update `m[k] = v`: replaces the binding in place, or appends it. -/
def mapSet : GoMap → String → Val → GoMap
  | [], k, v => [(k, v)]
  | (k', v') :: rest, k, v =>
    if k' = k then (k, v) :: rest else (k', v') :: mapSet rest k v

/-- An error outcome of the Go code: either an ordinary returned `error`, or
a nil-pointer-dereference panic. -/
inductive GoErr where
  | goError (msg : String)
  | nilPanic
deriving DecidableEq, Repr

/-- The `v.(map[string]interface{})` type assertion with its `ok` flag. -/
def asMapVal : Option Val → Option GoMap
  | some (.vmap m) => some m
  | _ => none

mutual
/-- `mergeMaps` from `fn.go`: copies `a` (the base), then for each key of
`b` (the overlay) applies one merge step. -/
def mergeMaps : GoMap → GoMap → GoMap
  | a, [] => a
  | a, (k, v) :: rest => mergeMaps (mergeStepV a k v) rest
termination_by _ b => sizeOf b

/-- One step of the `mergeMaps` loop for the overlay binding `k ↦ v`: when
both the overlay value and the current value at `k` are maps they are merged
recursively, otherwise the overlay value overwrites. -/
def mergeStepV (a : GoMap) (k : String) : Val → GoMap
  | .vmap vm =>
    match asMapVal (mapGet a k) with
    | some am => mapSet a k (.vmap (mergeMaps am vm))
    | none => mapSet a k (.vmap vm)
  | v => mapSet a k v
termination_by v => sizeOf v
end

/-- A named reference to a single extra resource
(`v1beta1.ResourceSourceReference`). -/
structure ResourceSourceReference where
  name : String
deriving DecidableEq, Repr

/-- One label matcher of a Selector source
(`v1beta1.ResourceSourceSelectorLabelMatcher`). The `type` and
`fromFieldPathPolicy` enums are kept as raw strings, as in the Go structs
(defaulting handled by the accessor functions below). -/
structure LabelMatcher where
  type : String
  key : String
  valueFromFieldPath : Option String
  fromFieldPathPolicy : Option String
  value : Option String
deriving DecidableEq, Repr

/-- `ResourceSourceSelectorLabelMatcher.GetType`: defaults to
`FromCompositeFieldPath` when unset. -/
def LabelMatcher.getType (m : LabelMatcher) : String :=
  if m.type = "" then "FromCompositeFieldPath" else m.type

/-- `ResourceSourceSelectorLabelMatcher.FromFieldPathIsOptional`. -/
def LabelMatcher.fromFieldPathIsOptional (m : LabelMatcher) : Bool :=
  m.fromFieldPathPolicy = some "Optional"

/-- A label selector for extra resources (`v1beta1.ResourceSourceSelector`).
`sortByFieldPath` is the parsed segment list of the dotted path (empty list
stands for the empty string). -/
structure ResourceSourceSelector where
  maxMatch : Option Nat
  minMatch : Option Nat
  sortByFieldPath : List String
  matchLabels : List LabelMatcher
deriving DecidableEq, Repr

/-- `ResourceSourceSelector.GetSortByFieldPath`: defaults to
`metadata.name` when the selector is nil or the path is empty. -/
def getSortByFieldPath : Option ResourceSourceSelector → List String
  | none => ["metadata", "name"]
  | some sel => if sel.sortByFieldPath = [] then ["metadata", "name"] else sel.sortByFieldPath

/-- One declared extra-resource request (`v1beta1.ResourceSource`).
Modelled from the spec: `toFieldPath` (destination path in the output
document) and `namespace` are declared in the current `input/v1beta1`
package, which is not among the provided sources; they follow spec section 3.
`toFieldPath` and `fromFieldPath` are parsed segment lists. -/
structure ResourceSource where
  type : String
  ref : Option ResourceSourceReference
  selector : Option ResourceSourceSelector
  kind : String
  apiVersion : String
  ns : String
  toFieldPath : Option (List String)
  fromFieldPath : Option (List String)
deriving DecidableEq, Repr

/-- `ResourceSource.GetType`: defaults to `Reference` when unset. -/
def ResourceSource.getType (e : ResourceSource) : String :=
  if e.type = "" then "Reference" else e.type

/-- Crossplane-runtime `xpv1.Policy` (only the resolution half is used). -/
structure XPPolicy where
  resolution : Option String
deriving DecidableEq, Repr

/-- Crossplane-runtime `Policy.IsResolutionPolicyOptional`: nil-safe, true
exactly when an explicit `Optional` resolution policy is set. -/
def isResolutionPolicyOptional : Option XPPolicy → Bool
  | none => false
  | some p => p.resolution = some "Optional"

/-- The function input (`v1beta1.Input.Spec`, restricted to the fields the
functions under verification read). -/
structure Input where
  extraResources : List ResourceSource
  policy : Option XPPolicy
deriving DecidableEq, Repr

/-- Interface-level model of the observed composite resource for
`fieldpath.Pave(xr.Resource.Object).GetString`: a map from (dotted) field
paths to the string value found there; `none` models any lookup error. -/
abbrev XRDoc := List (String × String)

/-- `GetString` against the composite document model. -/
def xrGetString : XRDoc → String → Option String
  | [], _ => none
  | (p, v) :: rest, q => if p = q then some v else xrGetString rest q

/-- Label-map update `matchLabels[key] = value` (Go map semantics). -/
def lblSet : List (String × String) → String → String → List (String × String)
  | [], k, v => [(k, v)]
  | (k', v') :: rest, k, v =>
    if k' = k then (k, v) :: rest else (k', v') :: lblSet rest k v

/-- The inner matcher loop of `buildRequirements`: resolves each label
matcher in order into the accumulated label map. Unknown matcher types fall
through the `switch` and are skipped. -/
def resolveLabels (xr : XRDoc) : List LabelMatcher → List (String × String) →
    Except GoErr (List (String × String))
  | [], acc => .ok acc
  | m :: rest, acc =>
    if m.getType = "Value" then
      match m.value with
      | none => .error (.goError "Value cannot be nil for type 'Value'")
      | some v => resolveLabels xr rest (lblSet acc m.key v)
    else if m.getType = "FromCompositeFieldPath" then
      match m.valueFromFieldPath with
      | none => .error (.goError "ValueFromFieldPath cannot be nil for type 'FromCompositeFieldPath'")
      | some p =>
        match xrGetString xr p with
        | none =>
          if m.fromFieldPathIsOptional then resolveLabels xr rest acc
          else .error (.goError ("cannot get value from field path " ++ p))
        | some v => resolveLabels xr rest (lblSet acc m.key v)
    else
      resolveLabels xr rest acc

/-- The match criterion of an emitted `fnv1.ResourceSelector`. -/
inductive SelMatch where
  | byName (n : String)
  | byLabels (ls : List (String × String))
deriving DecidableEq, Repr

/-- An emitted `fnv1.ResourceSelector`. -/
structure FnResourceSelector where
  apiVersion : String
  kind : String
  matchOn : SelMatch
  ns : String
deriving DecidableEq, Repr

/-- The requirement key for the source at declaration index `i`
(`fmt.Sprintf("resources-%d", i)`). -/
def reqKey (i : Nat) : String := "resources-" ++ toString i

/-- The loop of `buildRequirements`, carrying the declaration index.
Dereferencing a nil `ref` or nil `selector` is the modelled panic. A source
whose raw `type` is neither `Reference`, the empty string, nor `Selector`
matches no `switch` case and emits nothing. -/
def buildReqLoop (xr : XRDoc) : Nat → List ResourceSource →
    Except GoErr (List (String × FnResourceSelector))
  | _, [] => .ok []
  | i, er :: rest =>
    if er.type = "Reference" ∨ er.type = "" then
      match er.ref with
      | none => .error .nilPanic
      | some r =>
        match buildReqLoop xr (i + 1) rest with
        | .error e => .error e
        | .ok out =>
          .ok ((reqKey i,
            { apiVersion := er.apiVersion, kind := er.kind,
              matchOn := .byName r.name, ns := er.ns }) :: out)
    else if er.type = "Selector" then
      match er.selector with
      | none => .error .nilPanic
      | some sel =>
        match resolveLabels xr sel.matchLabels [] with
        | .error e => .error e
        | .ok ls =>
          if ls = [] then buildReqLoop xr (i + 1) rest
          else
            match buildReqLoop xr (i + 1) rest with
            | .error e => .error e
            | .ok out =>
              .ok ((reqKey i,
                { apiVersion := er.apiVersion, kind := er.kind,
                  matchOn := .byLabels ls, ns := er.ns }) :: out)
    else
      buildReqLoop xr (i + 1) rest

/-- `buildRequirements` from `fn.go`: one requirement per declared source,
keyed by declaration index; Selector sources resolving to zero labels are
omitted. -/
def buildRequirements (inp : Input) (xr : XRDoc) :
    Except GoErr (List (String × FnResourceSelector)) :=
  buildReqLoop xr 0 inp.extraResources

/-- An extra resource's unstructured object (`r.Resource.Object`). -/
abbrev Resource := GoMap

/-- The outcome of `fieldpath.Pave(obj).GetValue(path)`: a value, a
`fieldpath.IsNotFound` error, or another (fatal) lookup error. -/
inductive GetRes where
  | found (v : Val)
  | notFound
  | pathErr (m : String)
deriving Repr

/-- Interface-level model of `fieldpath.Pave(obj).GetValue` on a parsed
segment path: walks nested maps; a missing key is `notFound`, descending
into a non-map value is a non-not-found error, and the empty path is an
error (the empty field-path string does not parse). -/
def getValue : GoMap → List String → GetRes
  | _, [] => .pathErr "empty field path"
  | m, [s] =>
    match mapGet m s with
    | some v => .found v
    | none => .notFound
  | m, s :: s' :: rest =>
    match mapGet m s with
    | some (.vmap m') => getValue m' (s' :: rest)
    | some _ => .pathErr (s ++ ": not an object")
    | none => .notFound

/-- The first loop of `sortExtrasByFieldPath`: pairs every candidate with
its resolved sort value (`nil` on a not-found lookup) while threading the
common `reflect.Type` `t`, failing on any two non-nil values of different
kinds. Returns the pairs in original order together with the final `t`. -/
def buildPairs (path : List String) : List Resource → Option VKind →
    Except GoErr (List (Resource × Option Val) × Option VKind)
  | [], t => .ok ([], t)
  | r :: rest, t =>
    match getValue r path with
    | .pathErr m => .error (.goError m)
    | .notFound =>
      match buildPairs path rest t with
      | .error e => .error e
      | .ok (ps, t') => .ok ((r, none) :: ps, t')
    | .found v =>
      match t with
      | none =>
        match buildPairs path rest (some v.kind) with
        | .error e => .error e
        | .ok (ps, t') => .ok ((r, some v) :: ps, t')
      | some t0 =>
        if v.kind = t0 then
          match buildPairs path rest (some t0) with
          | .error e => .error e
          | .ok (ps, t') => .ok ((r, some v) :: ps, t')
        else
          .error (.goError "cannot sort values of different types")

/-- `reflect.Zero(t)` for the supported kinds. -/
def zeroOf : VKind → Val
  | .kstr => .str ""
  | .kint => .iGo 0
  | .ki64 => .i64 0
  | .ki32 => .i32 0
  | .ki16 => .i16 0
  | .ki8 => .i8 0
  | .kf64 => .f64 0
  | .kf32 => .f32 0
  | .kbool => .boolean false
  | .kmap => .vmap []
  | .kslice => .arr []

/-- The integer payload of a numeric value (the Go type assertions
`vali.(int64)` etc.; safe at every reachable call site because the first
loop enforced kind homogeneity). -/
def Val.asInt : Val → Int
  | .iGo n => n
  | .i64 n => n
  | .i32 n => n
  | .i16 n => n
  | .i8 n => n
  | .f64 n => n
  | .f32 n => n
  | _ => 0

/-- The string payload of a value (the Go type assertion `vali.(string)`). -/
def Val.asStr : Val → String
  | .str s => s
  | _ => ""

/-- The comparison closure passed to `sort.Slice`: nil values are replaced
by the zero value of `t`; the second component records whether the
`default` branch ran (which sets the captured `err` to the
unsupported-type error). The branches mirror the source `switch` order. -/
def lessFor (t : VKind) (a b : Option Val) : Bool × Bool :=
  let va := a.getD (zeroOf t)
  let vb := b.getD (zeroOf t)
  match t with
  | .kf64 => (va.asInt < vb.asInt, false)
  | .kf32 => (va.asInt < vb.asInt, false)
  | .ki64 => (va.asInt < vb.asInt, false)
  | .ki32 => (va.asInt < vb.asInt, false)
  | .ki16 => (va.asInt < vb.asInt, false)
  | .ki8 => (va.asInt < vb.asInt, false)
  | .kint => (va.asInt < vb.asInt, false)
  | .kstr => (va.asStr < vb.asStr, false)
  | _ => (false, true)

/-- Whether `t` is one of the kinds the `switch` in the comparison closure
supports (everything except the `default` branch). -/
def supportedKind : VKind → Bool
  | .kbool => false
  | .kmap => false
  | .kslice => false
  | _ => true

/-- Stable insertion of one element into an already-sorted list, with the
comparison's second components OR-ed: an element moves left exactly past
the entries it compares strictly less than, as in the stdlib insertion
sort that `sort.Slice` applies to short ranges. -/
def insertPair (less : α → α → Bool × Bool) (x : α) : List α → List α × Bool
  | [] => ([x], false)
  | y :: ys =>
    let c := less x y
    if c.1 then (x :: y :: ys, c.2)
    else
      let r := insertPair less x ys
      (y :: r.1, c.2 || r.2)

/-- The `sort.Slice` call, realized as a stable insertion sort (the stdlib
algorithm for short ranges), threading the flag that records whether the
comparison closure ever ran its `default` branch. -/
def sortSliceAux (less : α → α → Bool × Bool) : List α → List α → Bool →
    List α × Bool
  | [], acc, f => (acc, f)
  | x :: xs, acc, f =>
    let r := insertPair less x acc
    sortSliceAux less xs r.1 (f || r.2)

/-- Entry point for the modelled `sort.Slice`. -/
def sortSliceFlag (less : α → α → Bool × Bool) (l : List α) : List α × Bool :=
  sortSliceAux less l [] false

/-- `sortExtrasByFieldPath` from `fn.go`: resolve sort values and enforce
kind homogeneity; when all values are nil leave the list untouched; sort
with the kind's comparison and fail afterwards if the closure hit its
unsupported-kind `default` branch. -/
def sortExtrasByFieldPath (extras : List Resource) (path : List String) :
    Except GoErr (List Resource) :=
  if path = [] then .error (.goError "cannot sort by empty field path")
  else
    match buildPairs path extras none with
    | .error e => .error e
    | .ok (_, none) => .ok extras
    | .ok (pairs, some t) =>
      let r := sortSliceFlag (fun x y => lessFor t x.2 y.2) pairs
      if r.2 then .error (.goError "unsupported type for sorting")
      else .ok (r.1.map Prod.fst)

/-- One verified result (`FetchedResult` in `fn.go`): the declared source
together with the ordered extracted values. -/
structure FetchedResult where
  source : ResourceSource
  resources : List Val

/-- The extraction loop at the end of each `verifyAndSortExtras` iteration:
for each surviving match, extract the value at `fromFieldPath` (an empty
declared path is an error, and here a failed lookup — including not-found —
is returned as-is), or append the whole object when the path is unset. -/
def extract (er : ResourceSource) : List Resource → Except GoErr (List Val)
  | [] => .ok []
  | r :: rest =>
    match er.fromFieldPath with
    | some [] => .error (.goError "fromFieldPath cannot be empty, omit the field to get the whole object")
    | some p =>
      match getValue r p with
      | .found v =>
        match extract er rest with
        | .error e => .error e
        | .ok vs => .ok (v :: vs)
      | .notFound => .error (.goError "no such field")
      | .pathErr m => .error (.goError m)
    | none =>
      match extract er rest with
      | .error e => .error e
      | .ok vs => .ok (.vmap r :: vs)

/-- `resources[:*selector.MaxMatch]`, applied only when the list is longer
than the bound. -/
def truncateMax (maxMatch : Option Nat) (l : List Resource) : List Resource :=
  match maxMatch with
  | some mx => if mx < l.length then l.take mx else l
  | none => l

/-- The body of the `verifyAndSortExtras` loop for the source at index `i`:
look the requirement key up in the raw-match map (missing key is the fatal
consistency error), apply the per-type verification (`Reference`
cardinality / policy checks; Selector `minMatch`, sort, `maxMatch`), then
extract. `.ok none` is the `continue` that skips an Optional unresolved
Reference. A nil selector dereference is the modelled panic. -/
def verifyOne (pol : Option XPPolicy) (raw : List (String × List Resource))
    (i : Nat) (er : ResourceSource) : Except GoErr (Option FetchedResult) :=
  match lookupRaw raw (reqKey i) with
  | none => .error (.goError ("cannot find expected extra resource " ++ reqKey i))
  | some resources =>
    if er.getType = "Reference" then
      if resources.length = 0 then
        if isResolutionPolicyOptional pol then .ok none
        else .error (.goError ("Required extra resource " ++ reqKey i ++ " not found"))
      else if 1 < resources.length then
        .error (.goError ("expected exactly one extra resource " ++ reqKey i))
      else
        match extract er resources with
        | .error e => .error e
        | .ok vs => .ok (some ⟨er, vs⟩)
    else if er.getType = "Selector" then
      match er.selector with
      | none => .error .nilPanic
      | some sel =>
        match sel.minMatch with
        | some mn =>
          if resources.length < mn then
            .error (.goError ("expected at least " ++ toString mn ++ " extra resources " ++ reqKey i))
          else
            match sortExtrasByFieldPath resources (getSortByFieldPath (some sel)) with
            | .error e => .error e
            | .ok sorted =>
              match extract er (truncateMax sel.maxMatch sorted) with
              | .error e => .error e
              | .ok vs => .ok (some ⟨er, vs⟩)
        | none =>
          match sortExtrasByFieldPath resources (getSortByFieldPath (some sel)) with
          | .error e => .error e
          | .ok sorted =>
            match extract er (truncateMax sel.maxMatch sorted) with
            | .error e => .error e
            | .ok vs => .ok (some ⟨er, vs⟩)
    else
      match extract er resources with
      | .error e => .error e
      | .ok vs => .ok (some ⟨er, vs⟩)
where
  /-- Lookup in the raw extra-resources map. -/
  lookupRaw : List (String × List Resource) → String → Option (List Resource)
    | [], _ => none
    | (k, rs) :: rest, q => if k = q then some rs else lookupRaw rest q

/-- The loop of `verifyAndSortExtras`, iterating declared sources in order
with their declaration index. -/
def vLoop (pol : Option XPPolicy) (raw : List (String × List Resource)) :
    Nat → List ResourceSource → Except GoErr (List FetchedResult)
  | _, [] => .ok []
  | i, er :: rest =>
    match verifyOne pol raw i er with
    | .error e => .error e
    | .ok none => vLoop pol raw (i + 1) rest
    | .ok (some fr) =>
      match vLoop pol raw (i + 1) rest with
      | .error e => .error e
      | .ok frs => .ok (fr :: frs)

/-- `verifyAndSortExtras` from `fn.go`. -/
def verifyAndSortExtras (inp : Input) (raw : List (String × List Resource)) :
    Except GoErr (List FetchedResult) :=
  vLoop inp.policy raw 0 inp.extraResources

/-- `fieldpath.Pave(d).SetValue(path, v)` on a freshly allocated empty map
(as `intoEnvironment` uses it): builds the nested single-chain document
that holds `v` at the given segment path. Interface-level model of the
fieldpath collaborator. -/
def setValueFresh : List String → Val → GoMap
  | [], _ => []
  | [s], v => [(s, v)]
  | s :: s' :: rest, v => [(s, .vmap (setValueFresh (s' :: rest) v))]

/-- The `toFieldPath != nil && *toFieldPath != ""` guard: the destination
path when it is set and non-empty. -/
def pathNonEmpty : Option (List String) → Option (List String)
  | some (s :: ss) => some (s :: ss)
  | _ => none

/-- The accumulation loop of `intoEnvironment` over the extracted values of
one `FetchedResult`: values with a non-empty `toFieldPath` are wrapped in a
nested single-chain document and deep-merged; otherwise the value itself
must be an object and is deep-merged directly. -/
def accumOne (src : ResourceSource) : List Val → GoMap → Except GoErr GoMap
  | [], md => .ok md
  | extra :: rest, md =>
    match pathNonEmpty src.toFieldPath with
    | some p => accumOne src rest (mergeMaps md (setValueFresh p extra))
    | none =>
      match asMapVal (some extra) with
      | some e => accumOne src rest (mergeMaps md e)
      | none => .error (.goError "must set toFieldPath when extracted value is not an object")

/-- The outer accumulation loop of `intoEnvironment` over all verified
results. -/
def accumulateExtras : List FetchedResult → GoMap → Except GoErr GoMap
  | [], md => .ok md
  | fr :: rest, md =>
    match accumOne fr.source fr.resources md with
    | .error e => .error e
    | .ok md' => accumulateExtras rest md'

/-- The string at a top-level field of an unstructured object (`""` when
absent or not a string), as `unstructured.Unstructured` accessors behave. -/
def strField (m : GoMap) (k : String) : String :=
  match mapGet m k with
  | some (.str s) => s
  | _ => ""

/-- `out.GroupVersionKind().Empty()`: both the parsed `apiVersion` and the
`kind` of the document are empty. -/
def gvkEmpty (m : GoMap) : Bool :=
  strField m "apiVersion" = "" && strField m "kind" = ""

/-- The `SetGroupVersionKind` stamp applied when the merged document lacks
a type identity. -/
def stampGVK (m : GoMap) : GoMap :=
  if gvkEmpty m then
    mapSet (mapSet m "apiVersion" (.str "internal.crossplane.io/v1alpha1")) "kind" (.str "Environment")
  else m

/-- `intoEnvironment` from `fn.go`: accumulate all extracted values into a
fresh document, then deep-merge the pre-existing environment document (when
the context slot held one) as the base with the accumulator as overlay, and
stamp the default type identity if none resulted. The context lookup and
protobuf conversion are abstracted into the `Option GoMap` argument. -/
def intoEnvironment (inputEnv : Option GoMap) (verifiedExtras : List FetchedResult) :
    Except GoErr GoMap :=
  match accumulateExtras verifiedExtras [] with
  | .error e => .error e
  | .ok md =>
    match inputEnv with
    | some env => .ok (stampGVK (mergeMaps env md))
    | none => .ok (stampGVK md)

/-! Lemmas about the map primitives and `mergeMaps`. -/

/-- Whether the bindings of a modelled Go map have pairwise-distinct keys
(an invariant of every map the Go code builds). -/
def nodupKeys : GoMap → Bool
  | [] => true
  | (k, _) :: rest => (mapGet rest k).isNone && nodupKeys rest

theorem mapGet_mapSet_self (m : GoMap) (k : String) (v : Val) :
    mapGet (mapSet m k v) k = some v := by
  induction m with
  | nil => simp [mapSet, mapGet]
  | cons hd tl ih =>
    obtain ⟨k', v'⟩ := hd
    by_cases h : k' = k <;> simp [mapSet, mapGet, h, ih]

theorem mapGet_mapSet_ne (m : GoMap) (k' k : String) (v : Val) (h : k' ≠ k) :
    mapGet (mapSet m k' v) k = mapGet m k := by
  induction m with
  | nil => simp [mapSet, mapGet, h]
  | cons hd tl ih =>
    obtain ⟨k0, v0⟩ := hd
    by_cases h0 : k0 = k'
    · subst h0
      simp [mapSet, mapGet, h, ih]
    · by_cases h1 : k0 = k <;> simp [mapSet, mapGet, h0, h1, Ne.symm h, ih]

theorem nodupKeys_mapSet (m : GoMap) (k : String) (v : Val)
    (h : nodupKeys m = true) : nodupKeys (mapSet m k v) = true := by
  induction m with
  | nil => simp [mapSet, nodupKeys, mapGet]
  | cons hd tl ih =>
    obtain ⟨k0, v0⟩ := hd
    simp [nodupKeys] at h
    by_cases h0 : k0 = k
    · subst h0
      simp [mapSet, nodupKeys, h.1, h.2]
    · simp [mapSet, h0, nodupKeys]
      refine ⟨?_, ih h.2⟩
      rw [mapGet_mapSet_ne _ _ _ _ (fun hk => h0 hk.symm)]
      exact h.1

/-- The value a merge step stores at the overlay key: a recursive merge when
both sides are maps, the overlay value otherwise. -/
def mergeSnd (av : Option Val) : Val → Val
  | .vmap vm =>
    match asMapVal av with
    | some am => .vmap (mergeMaps am vm)
    | none => .vmap vm
  | v => v

theorem mergeStepV_eq_mapSet (a : GoMap) (k : String) (v : Val) :
    mergeStepV a k v = mapSet a k (mergeSnd (mapGet a k) v) := by
  cases v <;> simp [mergeStepV, mergeSnd]
  cases h : asMapVal (mapGet a k) <;> simp [h]

theorem mergeMaps_nil (a : GoMap) : mergeMaps a [] = a := by
  simp [mergeMaps]

theorem mergeMaps_cons (a : GoMap) (k : String) (v : Val) (rest : GoMap) :
    mergeMaps a ((k, v) :: rest) = mergeMaps (mergeStepV a k v) rest := by
  rw [mergeMaps]

theorem mergeMaps_get_none (a b : GoMap) (k : String) (h : mapGet b k = none) :
    mapGet (mergeMaps a b) k = mapGet a k := by
  induction b generalizing a with
  | nil => simp [mergeMaps_nil]
  | cons hd tl ih =>
    obtain ⟨k0, v0⟩ := hd
    by_cases h0 : k0 = k
    · simp [mapGet, h0] at h
    · simp [mapGet, h0] at h
      rw [mergeMaps_cons, ih _ h, mergeStepV_eq_mapSet, mapGet_mapSet_ne _ _ _ _ h0]

theorem mergeMaps_get_mem (a b : GoMap) (k : String) (v : Val)
    (hnd : nodupKeys b = true) (hv : mapGet b k = some v) :
    mapGet (mergeMaps a b) k = some (mergeSnd (mapGet a k) v) := by
  induction b generalizing a with
  | nil => simp [mapGet] at hv
  | cons hd tl ih =>
    obtain ⟨k0, v0⟩ := hd
    simp [nodupKeys] at hnd
    rw [mergeMaps_cons]
    by_cases h : k0 = k
    · subst h
      simp [mapGet] at hv
      subst hv
      rw [mergeMaps_get_none _ _ _ (by simpa [Option.isNone_iff_eq_none] using hnd.1),
        mergeStepV_eq_mapSet, mapGet_mapSet_self]
    · simp [mapGet, h] at hv
      rw [ih _ hnd.2 hv, mergeStepV_eq_mapSet, mapGet_mapSet_ne _ _ _ _ h]

theorem mapGet_isSome_mapSet (m : GoMap) (k' k : String) (v : Val)
    (h : (mapGet m k).isSome = true) : (mapGet (mapSet m k' v) k).isSome = true := by
  by_cases hk : k' = k
  · subst hk; simp [mapGet_mapSet_self]
  · rwa [mapGet_mapSet_ne _ _ _ _ hk]

theorem mergeMaps_isSome (a b : GoMap) (k : String)
    (h : (mapGet a k).isSome = true) : (mapGet (mergeMaps a b) k).isSome = true := by
  induction b generalizing a with
  | nil => simpa [mergeMaps_nil]
  | cons hd tl ih =>
    obtain ⟨k0, v0⟩ := hd
    rw [mergeMaps_cons]
    exact ih _ (by rw [mergeStepV_eq_mapSet]; exact mapGet_isSome_mapSet _ _ _ _ h)

theorem nodupKeys_mergeMaps (a b : GoMap) (h : nodupKeys a = true) :
    nodupKeys (mergeMaps a b) = true := by
  induction b generalizing a with
  | nil => simpa [mergeMaps_nil]
  | cons hd tl ih =>
    obtain ⟨k0, v0⟩ := hd
    rw [mergeMaps_cons]
    exact ih _ (by rw [mergeStepV_eq_mapSet]; exact nodupKeys_mapSet _ _ _ h)

/-! Claim C6: deep-merge semantics. -/

/-- C6 — deep-merge semantics of `mergeMaps`: the result keeps every key of
the base `a`; for each key of the overlay `b`, a mapping-with-mapping
collision merges recursively and every other case takes `b`'s value
(overlay wins, no error — `mergeMaps` is total); including the two concrete
examples from the specification. -/
theorem c6_mergeMaps_semantics (a b : GoMap) (hnd : nodupKeys b = true) :
    (∀ k, (mapGet a k).isSome = true → (mapGet (mergeMaps a b) k).isSome = true) ∧
    (∀ k vm am, mapGet b k = some (.vmap vm) → mapGet a k = some (.vmap am) →
      mapGet (mergeMaps a b) k = some (.vmap (mergeMaps am vm))) ∧
    (∀ k v, mapGet b k = some v →
      asMapVal (some v) = none ∨ asMapVal (mapGet a k) = none →
      mapGet (mergeMaps a b) k = some v) ∧
    mergeMaps [("a", .vmap [("x", .i64 1)])] [("a", .vmap [("y", .i64 2)])]
      = [("a", .vmap [("x", .i64 1), ("y", .i64 2)])] ∧
    mergeMaps [("a", .i64 1)] [("a", .vmap [("y", .i64 2)])]
      = [("a", .vmap [("y", .i64 2)])] := by
  refine ⟨fun k h => mergeMaps_isSome a b k h, ?_, ?_, ?_, ?_⟩
  · intro k vm am hb ha
    rw [mergeMaps_get_mem a b k _ hnd hb, ha]
    simp [mergeSnd, asMapVal]
  · intro k v hb hcol
    rw [mergeMaps_get_mem a b k v hnd hb]
    cases v <;> simp [mergeSnd]
    rcases hcol with h | h
    · simp [asMapVal] at h
    · simp [h]
  · simp [mergeMaps_cons, mergeMaps_nil, mergeStepV, asMapVal, mapGet, mapSet]
  · simp [mergeMaps_cons, mergeMaps_nil, mergeStepV, asMapVal, mapGet, mapSet]

/-- Witness for C6 at a concrete input. -/
theorem c6_mergeMaps_semantics_witness :
    mergeMaps [("a", Val.i64 1)] [("a", Val.vmap [("y", Val.i64 2)])]
      = [("a", Val.vmap [("y", Val.i64 2)])] :=
  (c6_mergeMaps_semantics [("a", Val.i64 1)] [("a", Val.vmap [("y", Val.i64 2)])]
    (by rfl)).2.2.2.2

/-! Claim C1: precedence between the pre-existing environment document and
the newly computed data in `intoEnvironment`. -/

/-- The pre-existing environment document of the C1 scenario. -/
def c1env : GoMap := [("a", Val.i64 1)]

/-- A verified Selector result carrying one whole object that collides with
`c1env` at key `a`. -/
def c1extras : List FetchedResult :=
  [⟨{ type := "Selector", ref := none, selector := none, kind := "", apiVersion := "",
      ns := "", toFieldPath := none, fromFieldPath := none },
    [Val.vmap [("a", Val.i64 2)]]⟩]

/-- C1 counterexample: with a pre-existing environment holding `a ↦ 1` and
newly computed data holding `a ↦ 2` (a non-mapping collision), the final
document holds the newly computed `2`, not the pre-existing `1` — the
pre-existing value does not win. -/
theorem c1_counterexample :
    ∃ out, intoEnvironment (some c1env) c1extras = .ok out ∧
      mapGet c1env "a" = some (Val.i64 1) ∧
      mapGet out "a" = some (Val.i64 2) ∧
      Val.i64 2 ≠ Val.i64 1 := by
  refine ⟨[("a", Val.i64 2), ("apiVersion", Val.str "internal.crossplane.io/v1alpha1"),
    ("kind", Val.str "Environment")], ?_, by rfl, by rfl, by simp⟩
  simp [intoEnvironment, accumulateExtras, accumOne, pathNonEmpty, c1env, c1extras,
    mergeMaps_cons, mergeMaps_nil, mergeStepV, asMapVal, mapGet, mapSet,
    stampGVK, gvkEmpty, strField]

theorem nodupKeys_accumOne (src : ResourceSource) (l : List Val)
    (md md' : GoMap) (h : nodupKeys md = true)
    (hacc : accumOne src l md = .ok md') : nodupKeys md' = true := by
  induction l generalizing md with
  | nil =>
    simp [accumOne] at hacc
    subst hacc
    exact h
  | cons x xs ih =>
    rw [accumOne] at hacc
    rcases hp : pathNonEmpty src.toFieldPath with _ | p <;> simp only [hp] at hacc
    · rcases hx : asMapVal (some x) with _ | e <;> simp only [hx] at hacc
      · cases hacc
      · exact ih _ (nodupKeys_mergeMaps _ _ h) hacc
    · exact ih _ (nodupKeys_mergeMaps _ _ h) hacc

theorem nodupKeys_accumulateExtras (extras : List FetchedResult)
    (md md' : GoMap) (h : nodupKeys md = true)
    (hacc : accumulateExtras extras md = .ok md') : nodupKeys md' = true := by
  induction extras generalizing md with
  | nil =>
    simp [accumulateExtras] at hacc
    subst hacc
    exact h
  | cons fr rest ih =>
    rw [accumulateExtras] at hacc
    cases h1 : accumOne fr.source fr.resources md with
    | error e => rw [h1] at hacc; cases hacc
    | ok md1 =>
      rw [h1] at hacc
      exact ih _ (nodupKeys_accumOne _ _ _ _ h h1) hacc

theorem stampGVK_get_ne (m : GoMap) (k : String)
    (h1 : k ≠ "apiVersion") (h2 : k ≠ "kind") :
    mapGet (stampGVK m) k = mapGet m k := by
  rw [stampGVK]
  by_cases hg : gvkEmpty m = true
  · simp only [hg, if_true]
    rw [mapGet_mapSet_ne _ _ _ _ (fun hk => h2 hk.symm),
      mapGet_mapSet_ne _ _ _ _ (fun hk => h1 hk.symm)]
  · simp [hg]

/-- C1 amended: the pre-existing environment document is the merge base and
the newly computed data the overlay, so on a conflicting key that is not a
mapping-with-mapping collision (and is not touched by the type-identity
stamp) the newly computed value — not the pre-existing one — appears in the
final output. -/
theorem c1_amended_new_data_wins (env : GoMap) (extras : List FetchedResult)
    (md : GoMap) (k : String) (v : Val)
    (hacc : accumulateExtras extras [] = .ok md)
    (hv : mapGet md k = some v)
    (hcol : asMapVal (some v) = none ∨ asMapVal (mapGet env k) = none)
    (hk1 : k ≠ "apiVersion") (hk2 : k ≠ "kind") :
    intoEnvironment (some env) extras = .ok (stampGVK (mergeMaps env md)) ∧
    mapGet (stampGVK (mergeMaps env md)) k = some v := by
  have hnd : nodupKeys md = true := nodupKeys_accumulateExtras extras [] md rfl hacc
  constructor
  · rw [intoEnvironment, hacc]
  · rw [stampGVK_get_ne _ _ hk1 hk2, mergeMaps_get_mem env md k v hnd hv]
    cases v <;> simp [mergeSnd]
    rcases hcol with h | h
    · simp [asMapVal] at h
    · simp [h]

/-- Witness for the amended C1 at the concrete C1 scenario. -/
theorem c1_amended_new_data_wins_witness :
    mapGet (stampGVK (mergeMaps c1env [("a", Val.i64 2)])) "a" = some (Val.i64 2) :=
  (c1_amended_new_data_wins c1env c1extras [("a", Val.i64 2)] "a" (Val.i64 2)
    (by simp [accumulateExtras, accumOne, pathNonEmpty, c1extras, mergeMaps_cons,
      mergeMaps_nil, mergeStepV, asMapVal, mapGet, mapSet])
    (by rfl) (Or.inl rfl) (by decide) (by decide)).2

/-! Injectivity of the decimal requirement keys. -/

/-- The numeric value of a decimal digit character. -/
def digitVal (c : Char) : Nat := c.toNat - 48

/-- The number denoted by a list of decimal digit characters. -/
def evalDigits (l : List Char) : Nat := l.foldl (fun a c => a * 10 + digitVal c) 0

theorem digitVal_digitChar (m : Nat) (h : m < 10) :
    digitVal (Nat.digitChar m) = m := by
  interval_cases m <;> rfl

theorem toDigitsCore_fuel (f1 f2 n : Nat) (ds : List Char)
    (h1 : n < f1) (h2 : n < f2) :
    Nat.toDigitsCore 10 f1 n ds = Nat.toDigitsCore 10 f2 n ds := by
  induction f1 generalizing f2 n ds with
  | zero => omega
  | succ f1 ih =>
    cases f2 with
    | zero => omega
    | succ f2 =>
      simp only [Nat.toDigitsCore]
      by_cases hd : n / 10 = 0
      · simp [hd]
      · simp only [hd, if_false]
        have hlt : n / 10 < n := Nat.div_lt_self (by omega) (by omega)
        exact ih _ _ _ (by omega) (by omega)

theorem toDigitsCore_append (f n : Nat) (ds : List Char) :
    Nat.toDigitsCore 10 f n ds = Nat.toDigitsCore 10 f n [] ++ ds := by
  induction f generalizing n ds with
  | zero => simp [Nat.toDigitsCore]
  | succ f ih =>
    simp only [Nat.toDigitsCore]
    by_cases hd : n / 10 = 0
    · simp [hd]
    · simp only [hd, if_false]
      rw [ih (n / 10) (Nat.digitChar (n % 10) :: ds),
        ih (n / 10) [Nat.digitChar (n % 10)]]
      simp

theorem evalDigits_toDigits (n : Nat) :
    evalDigits (Nat.toDigitsCore 10 (n + 1) n []) = n := by
  induction n using Nat.strong_induction_on with
  | _ n ih =>
    simp only [Nat.toDigitsCore]
    by_cases hd : n / 10 = 0
    · simp only [hd, if_true]
      have hn : n < 10 := by omega
      have hm : n % 10 = n := Nat.mod_eq_of_lt hn
      simp [evalDigits, hm, digitVal_digitChar _ hn]
    · simp only [hd, if_false]
      have hlt : n / 10 < n := Nat.div_lt_self (by omega) (by omega)
      rw [toDigitsCore_append, toDigitsCore_fuel n (n / 10 + 1) (n / 10) [] (by omega) (by omega)]
      have heval : ∀ l c, evalDigits (l ++ [c]) = evalDigits l * 10 + digitVal c := by
        intro l c
        simp [evalDigits, List.foldl_append]
      rw [heval, ih _ hlt, digitVal_digitChar _ (Nat.mod_lt _ (by omega))]
      omega

theorem natRepr_inj (a b : Nat) (h : Nat.repr a = Nat.repr b) : a = b := by
  have ha : (Nat.repr a).data = (Nat.repr b).data := by rw [h]
  simp only [Nat.repr, Nat.toDigits, List.asString] at ha
  have := congrArg evalDigits ha
  rwa [evalDigits_toDigits, evalDigits_toDigits] at this

theorem reqKey_inj (i j : Nat) (h : reqKey i = reqKey j) : i = j := by
  have hdata : (reqKey i).data = (reqKey j).data := by rw [h]
  simp only [reqKey, String.data_append] at hdata
  have hl := List.append_cancel_left hdata
  exact natRepr_inj i j (String.ext hl)

/-! Claim C4: shape of the requirement mapping. -/

theorem buildReqLoop_shape (xr : XRDoc) (i : Nat) (srcs : List ResourceSource)
    (reqs : List (String × FnResourceSelector))
    (h : buildReqLoop xr i srcs = .ok reqs) :
    reqs.length ≤ srcs.length ∧
    (∀ kv ∈ reqs, ∃ j, j < srcs.length ∧ kv.1 = reqKey (i + j)) ∧
    (∀ j src sel, srcs.get? j = some src → src.type = "Selector" →
      src.selector = some sel → resolveLabels xr sel.matchLabels [] = .ok [] →
      ∀ kv ∈ reqs, kv.1 ≠ reqKey (i + j)) := by
  induction srcs generalizing i reqs with
  | nil =>
    simp [buildReqLoop] at h
    subst h
    simp
  | cons er rest ih =>
    rw [buildReqLoop] at h
    by_cases hA : er.type = "Reference" ∨ er.type = ""
    · rw [if_pos hA] at h
      cases href : er.ref with
      | none =>
        simp only [href] at h
        exact absurd h (by simp)
      | some r =>
        simp only [href] at h
        cases hrec : buildReqLoop xr (i + 1) rest with
        | error e =>
          simp only [hrec] at h
          exact absurd h (by simp)
        | ok out =>
          simp only [hrec] at h
          injection h with h
          subst h
          obtain ⟨ihl, ihk, ihabs⟩ := ih (i + 1) out hrec
          refine ⟨by simp only [List.length_cons]; omega, ?_, ?_⟩
          · intro kv hkv
            rcases List.mem_cons.mp hkv with rfl | hkv
            · exact ⟨0, by simp, by simp⟩
            · obtain ⟨j, hj, hk⟩ := ihk kv hkv
              refine ⟨j + 1, by simp only [List.length_cons]; omega, ?_⟩
              rw [hk, (by omega : i + 1 + j = i + (j + 1))]
          · intro j src sel hsrc hty hsel hz kv hkv
            rcases List.mem_cons.mp hkv with rfl | hkv
            · cases j with
              | zero =>
                simp only [List.get?] at hsrc
                injection hsrc with hsrc
                subst hsrc
                rcases hA with hA | hA <;> rw [hty] at hA <;> simp at hA
              | succ j =>
                intro hkey
                have := reqKey_inj _ _ hkey
                omega
            · cases j with
              | zero =>
                simp only [List.get?] at hsrc
                injection hsrc with hsrc
                subst hsrc
                rcases hA with hA | hA <;> rw [hty] at hA <;> simp at hA
              | succ j =>
                have := ihabs j src sel (by simpa [List.get?] using hsrc) hty hsel hz kv hkv
                intro hkey
                rw [(by omega : i + (j + 1) = i + 1 + j)] at hkey
                exact this hkey
    · rw [if_neg hA] at h
      by_cases hB : er.type = "Selector"
      · rw [if_pos hB] at h
        cases hsel0 : er.selector with
        | none =>
          simp only [hsel0] at h
          exact absurd h (by simp)
        | some sel0 =>
          simp only [hsel0] at h
          cases hres : resolveLabels xr sel0.matchLabels [] with
          | error e =>
            simp only [hres] at h
            exact absurd h (by simp)
          | ok ls =>
            simp only [hres] at h
            by_cases hls : ls = []
            · rw [if_pos hls] at h
              obtain ⟨ihl, ihk, ihabs⟩ := ih (i + 1) reqs h
              refine ⟨by simp only [List.length_cons]; omega, ?_, ?_⟩
              · intro kv hkv
                obtain ⟨j, hj, hk⟩ := ihk kv hkv
                refine ⟨j + 1, by simp only [List.length_cons]; omega, ?_⟩
                rw [hk, (by omega : i + 1 + j = i + (j + 1))]
              · intro j src sel hsrc hty hsel hz kv hkv
                cases j with
                | zero =>
                  obtain ⟨j', hj', hk'⟩ := ihk kv hkv
                  rw [hk']
                  intro hkey
                  have := reqKey_inj _ _ hkey
                  omega
                | succ j =>
                  have := ihabs j src sel (by simpa [List.get?] using hsrc) hty hsel hz kv hkv
                  intro hkey
                  rw [(by omega : i + (j + 1) = i + 1 + j)] at hkey
                  exact this hkey
            · rw [if_neg hls] at h
              cases hrec : buildReqLoop xr (i + 1) rest with
              | error e =>
          simp only [hrec] at h
          exact absurd h (by simp)
              | ok out =>
                simp only [hrec] at h
                injection h with h
                subst h
                obtain ⟨ihl, ihk, ihabs⟩ := ih (i + 1) out hrec
                refine ⟨by simp only [List.length_cons]; omega, ?_, ?_⟩
                · intro kv hkv
                  rcases List.mem_cons.mp hkv with rfl | hkv
                  · exact ⟨0, by simp, by simp⟩
                  · obtain ⟨j, hj, hk⟩ := ihk kv hkv
                    refine ⟨j + 1, by simp only [List.length_cons]; omega, ?_⟩
                    rw [hk, (by omega : i + 1 + j = i + (j + 1))]
                · intro j src sel hsrc hty hsel hz kv hkv
                  rcases List.mem_cons.mp hkv with rfl | hkv
                  · cases j with
                    | zero =>
                      simp only [List.get?] at hsrc
                      injection hsrc with hsrc
                      subst hsrc
                      rw [hsel0] at hsel
                      injection hsel with hsel
                      subst hsel
                      rw [hres] at hz
                      injection hz with hz
                      exact absurd hz hls
                    | succ j =>
                      intro hkey
                      have := reqKey_inj _ _ hkey
                      omega
                  · cases j with
                    | zero =>
                      simp only [List.get?] at hsrc
                      injection hsrc with hsrc
                      subst hsrc
                      rw [hsel0] at hsel
                      injection hsel with hsel
                      subst hsel
                      rw [hres] at hz
                      injection hz with hz
                      exact absurd hz hls
                    | succ j =>
                      have := ihabs j src sel (by simpa [List.get?] using hsrc) hty hsel hz kv hkv
                      intro hkey
                      rw [(by omega : i + (j + 1) = i + 1 + j)] at hkey
                      exact this hkey
      · rw [if_neg hB] at h
        obtain ⟨ihl, ihk, ihabs⟩ := ih (i + 1) reqs h
        refine ⟨by simp only [List.length_cons]; omega, ?_, ?_⟩
        · intro kv hkv
          obtain ⟨j, hj, hk⟩ := ihk kv hkv
          refine ⟨j + 1, by simp only [List.length_cons]; omega, ?_⟩
          rw [hk, (by omega : i + 1 + j = i + (j + 1))]
        · intro j src sel hsrc hty hsel hz kv hkv
          cases j with
          | zero =>
            simp only [List.get?] at hsrc
            injection hsrc with hsrc
            subst hsrc
            exact absurd hty hB
          | succ j =>
            have := ihabs j src sel (by simpa [List.get?] using hsrc) hty hsel hz kv hkv
            intro hkey
            rw [(by omega : i + (j + 1) = i + 1 + j)] at hkey
            exact this hkey

/-- C4 — for every declared list of N sources whose requirement build
succeeds, the requirement mapping has at most N entries; every entry is
keyed by the declaration index of a source (`resources-<index>`), not by any
destination field; and a Selector source whose label matchers resolve to
zero labels has no entry at its key. -/
theorem c4_requirements_indexed (inp : Input) (xr : XRDoc)
    (reqs : List (String × FnResourceSelector))
    (h : buildRequirements inp xr = .ok reqs) :
    reqs.length ≤ inp.extraResources.length ∧
    (∀ kv ∈ reqs, ∃ j, j < inp.extraResources.length ∧ kv.1 = reqKey j) ∧
    (∀ j src sel, inp.extraResources.get? j = some src → src.type = "Selector" →
      src.selector = some sel → resolveLabels xr sel.matchLabels [] = .ok [] →
      ∀ kv ∈ reqs, kv.1 ≠ reqKey j) := by
  obtain ⟨h1, h2, h3⟩ := buildReqLoop_shape xr 0 inp.extraResources reqs h
  refine ⟨h1, ?_, ?_⟩
  · intro kv hkv
    obtain ⟨j, hj, hk⟩ := h2 kv hkv
    exact ⟨j, hj, by simpa using hk⟩
  · intro j src sel hsrc hty hsel hz kv hkv
    have := h3 j src sel hsrc hty hsel hz kv hkv
    simpa using this

/-- A Reference source declared by name `cfg-1`. -/
def exRefSrc : ResourceSource :=
  { type := "Reference", ref := some ⟨"cfg-1"⟩, selector := none,
    kind := "EnvironmentConfig", apiVersion := "v1", ns := "",
    toFieldPath := none, fromFieldPath := none }

/-- A Selector source with an empty matcher list (zero resolved labels). -/
def exZeroSelSrc : ResourceSource :=
  { type := "Selector", ref := none,
    selector := some
      { maxMatch := none, minMatch := none,
        sortByFieldPath := ["metadata", "name"], matchLabels := [] },
    kind := "EnvironmentConfig", apiVersion := "v1", ns := "",
    toFieldPath := none, fromFieldPath := none }

/-- An input declaring a Reference source followed by a zero-label Selector
source. -/
def c4inp : Input := { extraResources := [exRefSrc, exZeroSelSrc], policy := none }

/-- Witness for C4 at a concrete input: two declared sources, one emitted
requirement (the zero-label Selector is absent). -/
theorem c4_requirements_indexed_witness :
    ([(reqKey 0,
        { apiVersion := "v1", kind := "EnvironmentConfig",
          matchOn := .byName "cfg-1", ns := "" })] :
      List (String × FnResourceSelector)).length ≤ c4inp.extraResources.length :=
  (c4_requirements_indexed c4inp [] _ rfl).1

/-! Claim C9: a zero-label Selector source makes the second phase
unsatisfiable when the raw-match map holds exactly the requested keys. -/

theorem verifyOne_ok_lookup (pol : Option XPPolicy)
    (raw : List (String × List Resource)) (i : Nat) (er : ResourceSource)
    (r : Option FetchedResult) (h : verifyOne pol raw i er = .ok r) :
    (verifyOne.lookupRaw raw (reqKey i)).isSome = true := by
  rw [verifyOne] at h
  cases hl : verifyOne.lookupRaw raw (reqKey i) with
  | none =>
    simp only [hl] at h
    exact absurd h (by simp)
  | some rs => simp

theorem vLoop_ok_lookup (pol : Option XPPolicy)
    (raw : List (String × List Resource)) (i : Nat)
    (srcs : List ResourceSource) (res : List FetchedResult)
    (h : vLoop pol raw i srcs = .ok res) :
    ∀ p src, srcs.get? p = some src →
      (verifyOne.lookupRaw raw (reqKey (i + p))).isSome = true := by
  induction srcs generalizing i res with
  | nil => intro p src hp; simp [List.get?] at hp
  | cons er rest ih =>
    rw [vLoop] at h
    intro p src hp
    cases hv : verifyOne pol raw i er with
    | error e =>
      simp only [hv] at h
      exact absurd h (by simp)
    | ok o =>
      cases p with
      | zero => simpa using verifyOne_ok_lookup pol raw i er o hv
      | succ p =>
        have hp' : rest.get? p = some src := by simpa [List.get?] using hp
        rw [(by omega : i + (p + 1) = i + 1 + p)]
        cases o with
        | none =>
          simp only [hv] at h
          exact ih (i + 1) res h p src hp'
        | some fr =>
          simp only [hv] at h
          cases hrec : vLoop pol raw (i + 1) rest with
          | error e =>
            rw [hrec] at h
            exact absurd h (by simp)
          | ok frs => exact ih (i + 1) frs hrec p src hp'

/-- C9 — a Selector source whose matchers resolve to zero labels is omitted
from the requirements, yet verification still looks its key up and fails
with the fatal consistency error; so when the raw-match map holds exactly
the requested keys, the second phase can never succeed. -/
theorem c9_zero_label_selector_never_verifies (inp : Input) (xr : XRDoc)
    (raw : List (String × List Resource))
    (reqs : List (String × FnResourceSelector))
    (i : Nat) (src : ResourceSource) (sel : ResourceSourceSelector)
    (hb : buildRequirements inp xr = .ok reqs)
    (hsrc : inp.extraResources.get? i = some src)
    (hty : src.type = "Selector") (hsel : src.selector = some sel)
    (hz : resolveLabels xr sel.matchLabels [] = .ok [])
    (hkeys : ∀ k, (verifyOne.lookupRaw raw k).isSome = true ↔ k ∈ reqs.map Prod.fst) :
    verifyOne inp.policy raw i src =
      .error (.goError ("cannot find expected extra resource " ++ reqKey i)) ∧
    ∀ res, verifyAndSortExtras inp raw ≠ .ok res := by
  have habs : reqKey i ∉ reqs.map Prod.fst := by
    intro hmem
    obtain ⟨kv, hkv, hfst⟩ := List.mem_map.mp hmem
    have h3 := (buildReqLoop_shape xr 0 inp.extraResources reqs hb).2.2
    have hne := h3 i src sel hsrc hty hsel hz kv hkv
    rw [zero_add] at hne
    exact hne hfst
  have hlook : verifyOne.lookupRaw raw (reqKey i) = none := by
    cases hl : verifyOne.lookupRaw raw (reqKey i) with
    | none => rfl
    | some rs =>
      exact absurd ((hkeys (reqKey i)).mp (by simp [hl])) habs
  constructor
  · rw [verifyOne, hlook]
  · intro res hok
    rw [verifyAndSortExtras] at hok
    have := vLoop_ok_lookup inp.policy raw 0 inp.extraResources res hok i src hsrc
    rw [zero_add, hlook] at this
    simp at this

/-- An input declaring only the zero-label Selector source. -/
def c9inp : Input := { extraResources := [exZeroSelSrc], policy := none }

/-- Witness for C9 at a concrete input: the empty raw-match map holds
exactly the (zero) requested keys, and verification fails. -/
theorem c9_zero_label_selector_never_verifies_witness :
    verifyOne c9inp.policy [] 0 exZeroSelSrc =
      .error (.goError ("cannot find expected extra resource " ++ reqKey 0)) :=
  (c9_zero_label_selector_never_verifies c9inp [] [] [] 0 exZeroSelSrc
    (exZeroSelSrc.selector.get (by rfl)) rfl rfl rfl rfl rfl
    (by intro k; simp [verifyOne.lookupRaw])).1

/-! Claim C5: Reference-source cardinality and resolution policy. -/

/-- C5 — during verification, a Reference source with zero raw matches is
silently skipped (and contributes nothing: a single-source input verifies to
the empty result) exactly when the resolution policy is Optional, fails
when it is not, and more than one raw match always fails regardless of
policy. -/
theorem c5_reference_policy (pol : Option XPPolicy)
    (raw : List (String × List Resource)) (i : Nat) (er : ResourceSource)
    (resources : List Resource)
    (hty : er.getType = "Reference")
    (hres : verifyOne.lookupRaw raw (reqKey i) = some resources) :
    (resources = [] → isResolutionPolicyOptional pol = true →
      verifyOne pol raw i er = .ok none ∧ vLoop pol raw i [er] = .ok []) ∧
    (resources = [] → isResolutionPolicyOptional pol = false →
      verifyOne pol raw i er =
        .error (.goError ("Required extra resource " ++ reqKey i ++ " not found"))) ∧
    (1 < resources.length →
      verifyOne pol raw i er =
        .error (.goError ("expected exactly one extra resource " ++ reqKey i))) := by
  refine ⟨?_, ?_, ?_⟩
  · rintro rfl hopt
    have h1 : verifyOne pol raw i er = .ok none := by
      rw [verifyOne, hres]
      simp [hty, hopt]
    exact ⟨h1, by rw [vLoop, h1]; rfl⟩
  · rintro rfl hopt
    rw [verifyOne, hres]
    simp [hty, hopt]
  · intro hlen
    rw [verifyOne, hres]
    have h0 : ¬resources.length = 0 := by omega
    simp [hty, h0, hlen]

/-- Witness for C5: an Optional policy and an empty match list for the
Reference source yield a skip and an empty overall result. -/
theorem c5_reference_policy_witness :
    verifyOne (some ⟨some "Optional"⟩) [(reqKey 0, [])] 0 exRefSrc = .ok none ∧
    vLoop (some ⟨some "Optional"⟩) [(reqKey 0, [])] 0 [exRefSrc] = .ok [] :=
  (c5_reference_policy (some ⟨some "Optional"⟩) [(reqKey 0, [])] 0 exRefSrc []
    rfl rfl).1 rfl rfl

/-! Claim C7: kind homogeneity under the sort field path. -/

theorem buildPairs_keeps_t (path : List String) (l : List Resource) (k : VKind)
    (ps : List (Resource × Option Val)) (t' : Option VKind)
    (h : buildPairs path l (some k) = .ok (ps, t')) : t' = some k := by
  induction l generalizing ps with
  | nil =>
    rw [buildPairs] at h
    injection h with h
    cases h
    rfl
  | cons r rest ih =>
    rw [buildPairs] at h
    cases hg : getValue r path with
    | pathErr m =>
      simp only [hg] at h
      exact absurd h (by simp)
    | notFound =>
      simp only [hg] at h
      cases hrec : buildPairs path rest (some k) with
      | error e =>
        rw [hrec] at h
        exact absurd h (by simp)
      | ok pr =>
        rw [hrec] at h
        injection h with h
        cases h
        exact ih pr.1 (by rw [hrec])
    | found v =>
      simp only [hg] at h
      by_cases hk : v.kind = k
      · simp only [hk, if_true] at h
        cases hrec : buildPairs path rest (some k) with
        | error e =>
          rw [hrec] at h
          exact absurd h (by simp)
        | ok pr =>
          rw [hrec] at h
          injection h with h
          cases h
          exact ih pr.1 (by rw [hrec])
      · simp only [hk, if_false] at h
        exact absurd h (by simp)

theorem buildPairs_found_kind (path : List String) (l : List Resource)
    (t : Option VKind) (ps : List (Resource × Option Val)) (t' : Option VKind)
    (h : buildPairs path l t = .ok (ps, t')) :
    ∀ r ∈ l, ∀ v, getValue r path = .found v → t' = some v.kind := by
  induction l generalizing t ps with
  | nil => intro r hr; simp at hr
  | cons r0 rest ih =>
    rw [buildPairs] at h
    intro r hr v hv
    rcases List.mem_cons.mp hr with rfl | hr
    · simp only [hv] at h
      cases t with
      | none =>
        cases hrec : buildPairs path rest (some v.kind) with
        | error e =>
          rw [hrec] at h
          exact absurd h (by simp)
        | ok pr =>
          rw [hrec] at h
          injection h with h
          cases h
          exact buildPairs_keeps_t path rest v.kind pr.1 pr.2 (by rw [hrec])
      | some t0 =>
        by_cases hk : v.kind = t0
        · simp only [hk, if_true] at h
          cases hrec : buildPairs path rest (some t0) with
          | error e =>
            rw [hrec] at h
            exact absurd h (by simp)
          | ok pr =>
            rw [hrec] at h
            injection h with h
            cases h
            have hkt := buildPairs_keeps_t path rest t0 pr.1 pr.2 (by rw [hrec])
            rw [hkt, hk]
        · simp only [hk, if_false] at h
          exact absurd h (by simp)
    · cases hg : getValue r0 path with
      | pathErr m =>
        simp only [hg] at h
        exact absurd h (by simp)
      | notFound =>
        simp only [hg] at h
        cases hrec : buildPairs path rest t with
        | error e =>
          rw [hrec] at h
          exact absurd h (by simp)
        | ok pr =>
          rw [hrec] at h
          injection h with h
          cases h
          exact ih t pr.1 (by rw [hrec]) r hr v hv
      | found v0 =>
        simp only [hg] at h
        cases t with
        | none =>
          cases hrec : buildPairs path rest (some v0.kind) with
          | error e =>
            rw [hrec] at h
            exact absurd h (by simp)
          | ok pr =>
            rw [hrec] at h
            injection h with h
            cases h
            exact ih (some v0.kind) pr.1 (by rw [hrec]) r hr v hv
        | some t0 =>
          by_cases hk : v0.kind = t0
          · simp only [hk, if_true] at h
            cases hrec : buildPairs path rest (some t0) with
            | error e =>
              rw [hrec] at h
              exact absurd h (by simp)
            | ok pr =>
              rw [hrec] at h
              injection h with h
              cases h
              exact ih (some t0) pr.1 (by rw [hrec]) r hr v hv
          · simp only [hk, if_false] at h
            exact absurd h (by simp)

/-- C7 — whenever two candidates resolve, under the same sort field path, to
non-nil values of different underlying kinds, `sortExtrasByFieldPath` fails
with an error, regardless of list length and of the positions of the
mismatched elements. -/
theorem c7_mixed_kinds_fail (extras : List Resource) (path : List String)
    (i j : Nat) (ri rj : Resource) (vi vj : Val)
    (hi : extras.get? i = some ri) (hj : extras.get? j = some rj)
    (hvi : getValue ri path = .found vi) (hvj : getValue rj path = .found vj)
    (hk : vi.kind ≠ vj.kind) :
    ∃ e, sortExtrasByFieldPath extras path = .error e := by
  by_cases hpath : path = []
  · exact ⟨.goError "cannot sort by empty field path", by rw [sortExtrasByFieldPath, if_pos hpath]⟩
  · cases h : buildPairs path extras none with
    | error e =>
      exact ⟨e, by rw [sortExtrasByFieldPath, if_neg hpath, h]⟩
    | ok pr =>
      obtain ⟨ps, t'⟩ := pr
      have h1 := buildPairs_found_kind path extras none ps t' h ri
        (List.get?_mem hi) vi hvi
      have h2 := buildPairs_found_kind path extras none ps t' h rj
        (List.get?_mem hj) vj hvj
      rw [h1] at h2
      injection h2 with h2
      exact absurd h2 hk

/-- Witness for C7: a string and a number under one path. -/
theorem c7_mixed_kinds_fail_witness :
    ∃ e, sortExtrasByFieldPath [[("k", Val.str "a")], [("k", Val.i64 1)]] ["k"]
      = .error e :=
  c7_mixed_kinds_fail [[("k", Val.str "a")], [("k", Val.i64 1)]] ["k"]
    0 1 [("k", Val.str "a")] [("k", Val.i64 1)] (Val.str "a") (Val.i64 1)
    rfl rfl rfl rfl (by decide)

/-! Claim C3: Selector verification order. -/

/-- Candidate objects with sort keys 3, 1, 2. -/
def c3r1 : Resource := [("k", Val.i64 1), ("id", Val.str "one")]

/-- Candidate with sort key 2. -/
def c3r2 : Resource := [("k", Val.i64 2), ("id", Val.str "two")]

/-- Candidate with sort key 3. -/
def c3r3 : Resource := [("k", Val.i64 3), ("id", Val.str "three")]

/-- A selector sorting by `k` with `maxMatch = 2`. -/
def c3sel : ResourceSourceSelector :=
  { maxMatch := some 2, minMatch := none, sortByFieldPath := ["k"], matchLabels := [] }

/-- The Selector source of the C3 scenario. -/
def c3src : ResourceSource :=
  { type := "Selector", ref := none, selector := some c3sel, kind := "",
    apiVersion := "", ns := "", toFieldPath := none, fromFieldPath := none }

/-- C3 — Selector verification performs `minMatch` against the pre-sort,
pre-truncation raw count (failing there even if sorting would also fail),
then sorts, then truncates to `maxMatch`: every successful outcome extracts
exactly the truncation of the sorted candidates, and on sort keys
`[3, 1, 2]` with `maxMatch = 2` the surviving extracted values are the
objects with keys 1 and 2 in that order. -/
theorem c3_selector_order (pol : Option XPPolicy)
    (raw : List (String × List Resource)) (i : Nat) (er : ResourceSource)
    (sel : ResourceSourceSelector) (resources : List Resource)
    (hty : er.getType = "Selector") (hsel : er.selector = some sel)
    (hres : verifyOne.lookupRaw raw (reqKey i) = some resources) :
    (∀ mn, sel.minMatch = some mn → resources.length < mn →
      verifyOne pol raw i er =
        .error (.goError ("expected at least " ++ toString mn ++
          " extra resources " ++ reqKey i))) ∧
    (∀ fr, verifyOne pol raw i er = .ok (some fr) →
      ∃ sorted, sortExtrasByFieldPath resources (getSortByFieldPath (some sel)) = .ok sorted ∧
        extract er (truncateMax sel.maxMatch sorted) = .ok fr.resources) ∧
    verifyOne pol [(reqKey 0, [c3r3, c3r1, c3r2])] 0 c3src =
      .ok (some ⟨c3src, [.vmap c3r1, .vmap c3r2]⟩) := by
  refine ⟨?_, ?_, ?_⟩
  · intro mn hmn hlt
    rw [verifyOne, hres]
    simp [hty, hsel, hmn, hlt]
  · intro fr hv
    rw [verifyOne, hres] at hv
    simp only [hty, hsel] at hv
    rw [if_neg (show ("Selector" : String) = "Reference" → False by decide)] at hv
    simp only [if_true] at hv
    have hrest : (match sortExtrasByFieldPath resources (getSortByFieldPath (some sel)) with
        | Except.error e => Except.error e
        | Except.ok sorted =>
          match extract er (truncateMax sel.maxMatch sorted) with
          | Except.error e => Except.error e
          | Except.ok vs => Except.ok (some (⟨er, vs⟩ : FetchedResult))) = Except.ok (some fr) := by
      cases hmn : sel.minMatch with
      | some mn =>
        simp only [hmn] at hv
        by_cases hlt : resources.length < mn
        · rw [if_pos hlt] at hv
          exact absurd hv (by simp)
        · rwa [if_neg hlt] at hv
      | none => simpa only [hmn] using hv
    cases hs : sortExtrasByFieldPath resources (getSortByFieldPath (some sel)) with
    | error e =>
      simp only [hs] at hrest
      exact absurd hrest (by simp)
    | ok sorted =>
      simp only [hs] at hrest
      cases he : extract er (truncateMax sel.maxMatch sorted) with
      | error e =>
        simp only [he] at hrest
        exact absurd hrest (by simp)
      | ok vs =>
        simp only [he] at hrest
        injection hrest with hrest
        injection hrest with hrest
        refine ⟨sorted, rfl, ?_⟩
        rw [← hrest]
        exact he
  · rfl

/-- Witness for C3 at the concrete `[3, 1, 2]` scenario. -/
theorem c3_selector_order_witness :
    verifyOne none [(reqKey 0, [c3r3, c3r1, c3r2])] 0 c3src =
      .ok (some ⟨c3src, [.vmap c3r1, .vmap c3r2]⟩) :=
  (c3_selector_order none [(reqKey 0, [c3r3, c3r1, c3r2])] 0 c3src c3sel
    [c3r3, c3r1, c3r2] rfl rfl rfl).2.2

/-! Claim C8: unsupported value kinds under the sort path. -/

theorem lessFor_unsupported (t : VKind) (h : supportedKind t = false)
    (a b : Option Val) : lessFor t a b = (false, true) := by
  cases t <;> simp [supportedKind] at h ⊢ <;> rfl

theorem insertPair_const (less : α → α → Bool × Bool)
    (h : ∀ a b, less a b = (false, true)) (x : α) (l : List α) :
    insertPair less x l = (l ++ [x], !l.isEmpty) := by
  induction l with
  | nil => simp [insertPair]
  | cons y ys ih => simp [insertPair, h, ih]

theorem sortSliceAux_true (less : α → α → Bool × Bool) (xs acc : List α) :
    (sortSliceAux less xs acc true).2 = true := by
  induction xs generalizing acc with
  | nil => rfl
  | cons x xs ih => simpa [sortSliceAux] using ih (insertPair less x acc).1

theorem sortSliceAux_hits (less : α → α → Bool × Bool)
    (h : ∀ a b, less a b = (false, true)) (xs acc : List α) (f : Bool)
    (hacc : acc ≠ []) (hxs : xs ≠ []) :
    (sortSliceAux less xs acc f).2 = true := by
  cases xs with
  | nil => exact absurd rfl hxs
  | cons y ys =>
    rw [sortSliceAux, insertPair_const less h]
    have : (!acc.isEmpty) = true := by
      cases acc with
      | nil => exact absurd rfl hacc
      | cons a as => rfl
    rw [this, Bool.or_true]
    exact sortSliceAux_true less ys (acc ++ [y])

theorem buildPairs_fst (path : List String) (l : List Resource)
    (t : Option VKind) (ps : List (Resource × Option Val)) (t' : Option VKind)
    (h : buildPairs path l t = .ok (ps, t')) : ps.map Prod.fst = l := by
  induction l generalizing t ps with
  | nil =>
    rw [buildPairs] at h
    injection h with h
    cases h
    rfl
  | cons r rest ih =>
    rw [buildPairs] at h
    cases hg : getValue r path with
    | pathErr m =>
      simp only [hg] at h
      exact absurd h (by simp)
    | notFound =>
      simp only [hg] at h
      cases hrec : buildPairs path rest t with
      | error e =>
        rw [hrec] at h
        exact absurd h (by simp)
      | ok pr =>
        rw [hrec] at h
        injection h with h
        cases h
        simpa using ih t pr.1 (by rw [hrec])
    | found v =>
      simp only [hg] at h
      cases t with
      | none =>
        cases hrec : buildPairs path rest (some v.kind) with
        | error e =>
          rw [hrec] at h
          exact absurd h (by simp)
        | ok pr =>
          rw [hrec] at h
          injection h with h
          cases h
          simpa using ih (some v.kind) pr.1 (by rw [hrec])
      | some t0 =>
        by_cases hk : v.kind = t0
        · simp only [hk, if_true] at h
          cases hrec : buildPairs path rest (some t0) with
          | error e =>
            rw [hrec] at h
            exact absurd h (by simp)
          | ok pr =>
            rw [hrec] at h
            injection h with h
            cases h
            simpa using ih (some t0) pr.1 (by rw [hrec])
        · simp only [hk, if_false] at h
          exact absurd h (by simp)

/-- C8 amended — when all non-nil resolved values share one unsupported
kind, `sortExtrasByFieldPath` returns the fatal unsupported-type error
exactly when at least two candidates are present (so that the comparison
closure runs at least once); a single-candidate list is accepted unchanged,
with no error. -/
theorem c8_unsupported_kind (extras : List Resource) (path : List String)
    (t : VKind) (ps : List (Resource × Option Val))
    (hpath : path ≠ [])
    (hbp : buildPairs path extras none = .ok (ps, some t))
    (hunsup : supportedKind t = false) :
    (2 ≤ extras.length →
      sortExtrasByFieldPath extras path = .error (.goError "unsupported type for sorting")) ∧
    (extras.length ≤ 1 → sortExtrasByFieldPath extras path = .ok extras) := by
  have hfst := buildPairs_fst path extras none ps (some t) hbp
  have hlen : ps.length = extras.length := by rw [← hfst, List.length_map]
  have hconst : ∀ x y : Resource × Option Val,
      (fun x y : Resource × Option Val => lessFor t x.2 y.2) x y = (false, true) :=
    fun x y => lessFor_unsupported t hunsup x.2 y.2
  constructor
  · intro h2
    rw [sortExtrasByFieldPath, if_neg hpath, hbp]
    have hflag : (sortSliceFlag (fun x y : Resource × Option Val => lessFor t x.2 y.2) ps).2 = true := by
      rw [sortSliceFlag]
      cases ps with
      | nil => simp at hlen; omega
      | cons p rest =>
        cases rest with
        | nil => simp at hlen; omega
        | cons q qs =>
          rw [sortSliceAux, insertPair_const _ hconst]
          simp only [List.nil_append, List.isEmpty_nil, Bool.not_true, Bool.or_false]
          exact sortSliceAux_hits _ hconst (q :: qs) [p] false (by simp) (by simp)
    simp only [hflag, if_true]
  · intro h1
    rw [sortExtrasByFieldPath, if_neg hpath, hbp]
    cases ps with
    | nil =>
      have : extras = [] := by simpa using hfst.symm
      subst this
      rw [buildPairs] at hbp
      injection hbp with hbp
      injection hbp with hbp1 hbp2
      exact absurd hbp2 (by simp)
    | cons p rest =>
      cases rest with
      | nil =>
        have hps : sortSliceFlag (fun x y : Resource × Option Val => lessFor t x.2 y.2) [p]
            = ([p], false) := rfl
        simp only [hps, Bool.false_eq_true, if_false]
        rw [← hfst]
      | cons q qs => simp at hlen; omega

/-- A single candidate whose sort value is a boolean. -/
def c8r : Resource := [("k", Val.boolean true)]

/-- C8 counterexample: a one-element candidate list whose only resolved
value has the unsupported boolean kind is accepted without any error — the
claimed fatal unsupported-type error does not occur for a singleton. -/
theorem c8_counterexample :
    getValue c8r ["k"] = .found (Val.boolean true) ∧
    supportedKind (Val.boolean true).kind = false ∧
    sortExtrasByFieldPath [c8r] ["k"] = .ok [c8r] :=
  ⟨rfl, rfl, rfl⟩

/-- Witness for the amended C8: two boolean-valued candidates fail, via the
theorem's first conjunct. -/
theorem c8_unsupported_kind_witness :
    sortExtrasByFieldPath [[("k", Val.boolean true)], [("k", Val.boolean false)]] ["k"]
      = .error (.goError "unsupported type for sorting") :=
  (c8_unsupported_kind [[("k", Val.boolean true)], [("k", Val.boolean false)]] ["k"]
    .kbool [([("k", Val.boolean true)], some (Val.boolean true)),
      ([("k", Val.boolean false)], some (Val.boolean false))]
    (by simp) rfl rfl).1 (by simp)

/-! Claim C10: nil-pointer guards. -/

theorem resolveLabels_no_panic (xr : XRDoc) (ms : List LabelMatcher)
    (acc : List (String × String)) :
    resolveLabels xr ms acc ≠ .error .nilPanic := by
  induction ms generalizing acc with
  | nil => simp [resolveLabels]
  | cons m rest ih =>
    intro hcon
    rw [resolveLabels] at hcon
    by_cases h1 : m.getType = "Value"
    · rw [if_pos h1] at hcon
      cases hv : m.value with
      | none =>
        simp only [hv] at hcon
        exact absurd hcon (by simp)
      | some v =>
        simp only [hv] at hcon
        exact ih _ hcon
    · rw [if_neg h1] at hcon
      by_cases h2 : m.getType = "FromCompositeFieldPath"
      · rw [if_pos h2] at hcon
        cases hv : m.valueFromFieldPath with
        | none =>
          simp only [hv] at hcon
          exact absurd hcon (by simp)
        | some p =>
          simp only [hv] at hcon
          cases hx : xrGetString xr p with
          | none =>
            simp only [hx] at hcon
            by_cases h3 : m.fromFieldPathIsOptional = true
            · rw [if_pos h3] at hcon
              exact ih _ hcon
            · rw [if_neg h3] at hcon
              exact absurd hcon (by simp)
          | some v =>
            simp only [hx] at hcon
            exact ih _ hcon
      · rw [if_neg h2] at hcon
        exact ih _ hcon

theorem buildReqLoop_no_panic (xr : XRDoc) (i : Nat) (srcs : List ResourceSource)
    (hpre : ∀ src ∈ srcs,
      ((src.type = "Reference" ∨ src.type = "") → src.ref ≠ none) ∧
      (src.type = "Selector" → src.selector ≠ none)) :
    buildReqLoop xr i srcs ≠ .error .nilPanic := by
  induction srcs generalizing i with
  | nil => simp [buildReqLoop]
  | cons er rest ih =>
    have hpre0 := hpre er (List.mem_cons_self er rest)
    have hpre' : ∀ src ∈ rest,
        ((src.type = "Reference" ∨ src.type = "") → src.ref ≠ none) ∧
        (src.type = "Selector" → src.selector ≠ none) :=
      fun src hsrc => hpre src (List.mem_cons_of_mem er hsrc)
    intro hcon
    rw [buildReqLoop] at hcon
    by_cases hA : er.type = "Reference" ∨ er.type = ""
    · rw [if_pos hA] at hcon
      cases href : er.ref with
      | none => exact (hpre0.1 hA) href
      | some r =>
        simp only [href] at hcon
        cases hrec : buildReqLoop xr (i + 1) rest with
        | error e =>
          rw [hrec] at hcon
          injection hcon with hcon
          exact ih (i + 1) hpre' (by rw [hrec, hcon])
        | ok out =>
          rw [hrec] at hcon
          exact absurd hcon (by simp)
    · rw [if_neg hA] at hcon
      by_cases hB : er.type = "Selector"
      · rw [if_pos hB] at hcon
        cases hsel : er.selector with
        | none => exact (hpre0.2 hB) hsel
        | some sel =>
          simp only [hsel] at hcon
          cases hres : resolveLabels xr sel.matchLabels [] with
          | error e =>
            rw [hres] at hcon
            injection hcon with hcon
            exact resolveLabels_no_panic xr sel.matchLabels [] (by rw [hres, hcon])
          | ok ls =>
            simp only [hres] at hcon
            by_cases hls : ls = []
            · rw [if_pos hls] at hcon
              exact ih (i + 1) hpre' hcon
            · rw [if_neg hls] at hcon
              cases hrec : buildReqLoop xr (i + 1) rest with
              | error e =>
                rw [hrec] at hcon
                injection hcon with hcon
                exact ih (i + 1) hpre' (by rw [hrec, hcon])
              | ok out =>
                rw [hrec] at hcon
                exact absurd hcon (by simp)
      · rw [if_neg hB] at hcon
        exact ih (i + 1) hpre' hcon

theorem buildPairs_no_panic (path : List String) (l : List Resource)
    (t : Option VKind) : buildPairs path l t ≠ .error .nilPanic := by
  induction l generalizing t with
  | nil => simp [buildPairs]
  | cons r rest ih =>
    intro hcon
    rw [buildPairs] at hcon
    cases hg : getValue r path with
    | pathErr m =>
      simp only [hg] at hcon
      exact absurd hcon (by simp)
    | notFound =>
      simp only [hg] at hcon
      cases hrec : buildPairs path rest t with
      | error e =>
        rw [hrec] at hcon
        injection hcon with hcon
        exact ih t (by rw [hrec, hcon])
      | ok pr =>
        rw [hrec] at hcon
        exact absurd hcon (by simp)
    | found v =>
      simp only [hg] at hcon
      cases ht : t with
      | none =>
        simp only [ht] at hcon
        cases hrec : buildPairs path rest (some v.kind) with
        | error e =>
          rw [hrec] at hcon
          injection hcon with hcon
          exact ih (some v.kind) (by rw [hrec, hcon])
        | ok pr =>
          rw [hrec] at hcon
          exact absurd hcon (by simp)
      | some t0 =>
        simp only [ht] at hcon
        by_cases hk : v.kind = t0
        · rw [if_pos hk] at hcon
          cases hrec : buildPairs path rest (some t0) with
          | error e =>
            rw [hrec] at hcon
            injection hcon with hcon
            exact ih (some t0) (by rw [hrec, hcon])
          | ok pr =>
            rw [hrec] at hcon
            exact absurd hcon (by simp)
        · rw [if_neg hk] at hcon
          exact absurd hcon (by simp)

theorem extract_no_panic (er : ResourceSource) (l : List Resource) :
    extract er l ≠ .error .nilPanic := by
  induction l with
  | nil => simp [extract]
  | cons r rest ih =>
    intro hcon
    rw [extract] at hcon
    cases hf : er.fromFieldPath with
    | none =>
      simp only [hf] at hcon
      cases hrec : extract er rest with
      | error e =>
        rw [hrec] at hcon
        injection hcon with hcon
        exact ih (by rw [hrec, hcon])
      | ok vs =>
        rw [hrec] at hcon
        exact absurd hcon (by simp)
    | some p =>
      cases p with
      | nil =>
        simp only [hf] at hcon
        exact absurd hcon (by simp)
      | cons s ss =>
        simp only [hf] at hcon
        cases hg : getValue r (s :: ss) with
        | pathErr m =>
          simp only [hg] at hcon
          exact absurd hcon (by simp)
        | notFound =>
          simp only [hg] at hcon
          exact absurd hcon (by simp)
        | found v =>
          simp only [hg] at hcon
          cases hrec : extract er rest with
          | error e =>
            rw [hrec] at hcon
            injection hcon with hcon
            exact ih (by rw [hrec, hcon])
          | ok vs =>
            rw [hrec] at hcon
            exact absurd hcon (by simp)

theorem sortExtras_no_panic (extras : List Resource) (path : List String) :
    sortExtrasByFieldPath extras path ≠ .error .nilPanic := by
  intro hcon
  rw [sortExtrasByFieldPath] at hcon
  by_cases hp : path = []
  · rw [if_pos hp] at hcon
    exact absurd hcon (by simp)
  · rw [if_neg hp] at hcon
    cases hbp : buildPairs path extras none with
    | error e =>
      rw [hbp] at hcon
      injection hcon with hcon
      exact buildPairs_no_panic path extras none (by rw [hbp, hcon])
    | ok pr =>
      obtain ⟨ps, t'⟩ := pr
      simp only [hbp] at hcon
      cases t' with
      | none => exact absurd hcon (by simp)
      | some t =>
        by_cases hflag : (sortSliceFlag (fun x y : Resource × Option Val => lessFor t x.2 y.2) ps).2 = true
        · simp only [hflag, if_true] at hcon
          exact absurd hcon (by simp)
        · simp only [hflag, if_false] at hcon
          exact absurd hcon (by simp)

theorem verifyOne_no_panic (pol : Option XPPolicy)
    (raw : List (String × List Resource)) (i : Nat) (er : ResourceSource)
    (hpre : er.getType = "Selector" → er.selector ≠ none) :
    verifyOne pol raw i er ≠ .error .nilPanic := by
  intro hcon
  rw [verifyOne] at hcon
  cases hl : verifyOne.lookupRaw raw (reqKey i) with
  | none =>
    simp only [hl] at hcon
    exact absurd hcon (by simp)
  | some resources =>
    simp only [hl] at hcon
    by_cases hA : er.getType = "Reference"
    · rw [if_pos hA] at hcon
      by_cases h0 : resources.length = 0
      · rw [if_pos h0] at hcon
        by_cases hopt : isResolutionPolicyOptional pol = true
        · rw [if_pos hopt] at hcon
          exact absurd hcon (by simp)
        · rw [if_neg hopt] at hcon
          exact absurd hcon (by simp)
      · rw [if_neg h0] at hcon
        by_cases h1 : 1 < resources.length
        · rw [if_pos h1] at hcon
          exact absurd hcon (by simp)
        · rw [if_neg h1] at hcon
          cases hext : extract er resources with
          | error e =>
            rw [hext] at hcon
            injection hcon with hcon
            exact extract_no_panic er resources (by rw [hext, hcon])
          | ok vs =>
            rw [hext] at hcon
            exact absurd hcon (by simp)
    · rw [if_neg hA] at hcon
      by_cases hB : er.getType = "Selector"
      · rw [if_pos hB] at hcon
        cases hsel : er.selector with
        | none => exact (hpre hB) hsel
        | some sel =>
          simp only [hsel] at hcon
          have hsort : ∀ mx,
              (match sortExtrasByFieldPath resources (getSortByFieldPath (some sel)) with
                | Except.error e => Except.error e
                | Except.ok sorted =>
                  match extract er (truncateMax mx sorted) with
                  | Except.error e => Except.error e
                  | Except.ok vs => Except.ok (some (⟨er, vs⟩ : FetchedResult)))
                = (.error .nilPanic : Except GoErr (Option FetchedResult)) → False := by
            intro mx hcon2
            cases hs : sortExtrasByFieldPath resources (getSortByFieldPath (some sel)) with
            | error e =>
              rw [hs] at hcon2
              injection hcon2 with hcon2
              exact sortExtras_no_panic resources (getSortByFieldPath (some sel))
                (by rw [hs, hcon2])
            | ok sorted =>
              simp only [hs] at hcon2
              cases hext : extract er (truncateMax mx sorted) with
              | error e =>
                rw [hext] at hcon2
                injection hcon2 with hcon2
                exact extract_no_panic er (truncateMax mx sorted) (by rw [hext, hcon2])
              | ok vs =>
                rw [hext] at hcon2
                exact absurd hcon2 (by simp)
          cases hmn : sel.minMatch with
          | some mn =>
            simp only [hmn] at hcon
            by_cases hlt : resources.length < mn
            · rw [if_pos hlt] at hcon
              exact absurd hcon (by simp)
            · rw [if_neg hlt] at hcon
              exact hsort sel.maxMatch hcon
          | none =>
            simp only [hmn] at hcon
            exact hsort sel.maxMatch hcon
      · rw [if_neg hB] at hcon
        cases hext : extract er resources with
        | error e =>
          rw [hext] at hcon
          injection hcon with hcon
          exact extract_no_panic er resources (by rw [hext, hcon])
        | ok vs =>
          rw [hext] at hcon
          exact absurd hcon (by simp)

theorem vLoop_no_panic (pol : Option XPPolicy)
    (raw : List (String × List Resource)) (i : Nat) (srcs : List ResourceSource)
    (hpre : ∀ src ∈ srcs, src.getType = "Selector" → src.selector ≠ none) :
    vLoop pol raw i srcs ≠ .error .nilPanic := by
  induction srcs generalizing i with
  | nil => simp [vLoop]
  | cons er rest ih =>
    have hpre0 := hpre er (List.mem_cons_self er rest)
    have hpre' : ∀ src ∈ rest, src.getType = "Selector" → src.selector ≠ none :=
      fun src hsrc => hpre src (List.mem_cons_of_mem er hsrc)
    intro hcon
    rw [vLoop] at hcon
    cases hv : verifyOne pol raw i er with
    | error e =>
      rw [hv] at hcon
      injection hcon with hcon
      exact verifyOne_no_panic pol raw i er hpre0 (by rw [hv, hcon])
    | ok o =>
      simp only [hv] at hcon
      cases o with
      | none => exact ih (i + 1) hpre' hcon
      | some fr =>
        cases hrec : vLoop pol raw (i + 1) rest with
        | error e =>
          rw [hrec] at hcon
          injection hcon with hcon
          exact ih (i + 1) hpre' (by rw [hrec, hcon])
        | ok frs =>
          rw [hrec] at hcon
          exact absurd hcon (by simp)

/-- A Reference-type source with a nil `ref`. -/
def c10refBad : ResourceSource :=
  { type := "Reference", ref := none, selector := none, kind := "", apiVersion := "",
    ns := "", toFieldPath := none, fromFieldPath := none }

/-- A Selector-type source with a nil `selector`. -/
def c10selBad : ResourceSource :=
  { type := "Selector", ref := none, selector := none, kind := "", apiVersion := "",
    ns := "", toFieldPath := none, fromFieldPath := none }

/-- C10 — the builders are total only under the non-nil preconditions: a
Reference-type source with a nil `ref` makes `buildRequirements` dereference
a nil pointer (modelled panic) instead of returning an error, and a
Selector-type source with a nil `selector` likewise makes
`verifyAndSortExtras` panic; under the preconditions neither function ever
panics. -/
theorem c10_nil_guards :
    buildRequirements { extraResources := [c10refBad], policy := none } [] =
      .error .nilPanic ∧
    verifyAndSortExtras { extraResources := [c10selBad], policy := none }
      [(reqKey 0, [])] = .error .nilPanic ∧
    (∀ inp xr, (∀ src ∈ inp.extraResources,
        ((src.type = "Reference" ∨ src.type = "") → src.ref ≠ none) ∧
        (src.type = "Selector" → src.selector ≠ none)) →
      buildRequirements inp xr ≠ .error .nilPanic) ∧
    (∀ inp raw, (∀ src ∈ inp.extraResources,
        src.getType = "Selector" → src.selector ≠ none) →
      verifyAndSortExtras inp raw ≠ .error .nilPanic) := by
  refine ⟨rfl, rfl, ?_, ?_⟩
  · intro inp xr hpre
    exact buildReqLoop_no_panic xr 0 inp.extraResources hpre
  · intro inp raw hpre
    exact vLoop_no_panic inp.policy raw 0 inp.extraResources hpre

/-- Witness for C10's panic-freedom conjunct at a concrete well-formed
input. -/
theorem c10_nil_guards_witness :
    buildRequirements c4inp [] ≠ .error .nilPanic :=
  c10_nil_guards.2.2.1 c4inp [] (by
    intro src hsrc
    rcases List.mem_cons.mp hsrc with rfl | hsrc
    · refine ⟨fun h => by simp [exRefSrc] at h ⊢, fun h => by simp [exRefSrc] at h⟩
    · rcases List.mem_cons.mp hsrc with rfl | hsrc
      · refine ⟨fun h => by simp [exZeroSelSrc] at h, fun h => by simp [exZeroSelSrc]⟩
      · simp at hsrc)
